import Mathlib

/-!
Verification development for the VGGT-SLAM demo driver (`src/app.py`).

The embedding models `run_slam`: archive contents arrive as a list of extracted
file names; the image filter, the keyframe-gated streaming loop over the sorted
paths (lines 100-118 of `app.py`), and the final visualization/export steps are
translated directly.  External collaborators (the VGGT model, the `Solver`'s
flow tracker, predictor, pose graph and exporter) are modelled as oracles: for
each call site the oracle supplies the observable outcome of that call (a
boolean admission verdict, success or a raised exception, the number of loop
closures recorded).  A trace of events records, in order, every collaborator
call the driver performs, so that sequencing claims can be stated.
-/

/-- Python exception as observed by the `except` clause of `run_slam`:
`str(e)` and `traceback.format_exc()`. -/
structure Exn where
  msg : String
  tb : String
deriving DecidableEq, Repr

/-- The five configuration parameters of `run_slam` (its signature, lines
40-47).  `min_disparity` and `conf_threshold` are Python floats that the driver
only passes through to collaborators; they are modelled as rationals. -/
structure Config where
  use_sim3 : Bool
  submap_size : Nat
  max_loops : Nat
  min_disparity : ℚ
  conf_threshold : ℚ
deriving DecidableEq

/-- One observable step performed by the driver, in program order. -/
inductive Event where
  | sortEvent : Event                  -- utils.sort_images_by_number (line 85)
  | getModel : Event                   -- get_model() (line 91)
  | mkSolver : Event                   -- Solver(...) construction (line 93)
  | examine : String → Event           -- cv2.imread + flow_tracker.compute_disparity (103-104)
  | accept : String → Event            -- image_names_subset.append (106 / 108)
  | reject : String → Event            -- gate returned False, frame dropped
  | predict : List String → Event      -- solver.run_predictions (113)
  | addPoints : List String → Event    -- solver.add_points (114)
  | optimize : Event                   -- solver.graph.optimize (115)
  | propagate : Event                  -- solver.map.update_submap_homographies (116)
  | updateVis : Event                  -- solver.update_all_submap_vis (120)
  | exportScene : Event                -- solver.export_3d_scene (124)
deriving DecidableEq, Repr

/-- Outcomes of the external collaborator calls made by `run_slam`.  Each call
site is indexed (gate calls by raw-frame position, per-submap calls by the
index of the submap being finalized) so that a fixed oracle bundle describes
one deterministic behaviour of the collaborators. -/
structure Oracles where
  sortImages : List String → List String            -- utils.sort_images_by_number
  gate : ℚ → Nat → Except Exn Bool                  -- imread + compute_disparity(img, min_disparity, False)
  predictOk : Nat → Except Exn Unit                 -- run_predictions(subset, model, max_loops)
  loopsAdded : Nat → Nat                            -- loop closures recorded during the k-th run_predictions
  addPointsOk : Nat → Except Exn Unit               -- solver.add_points
  optimizeOk : Nat → Except Exn Unit                -- solver.graph.optimize
  propagateOk : Nat → Except Exn Unit               -- solver.map.update_submap_homographies
  updateVisOk : Except Exn Unit                     -- solver.update_all_submap_vis
  exportResult : Except Exn String                  -- solver.export_3d_scene

/-- Mutable state of the main loop: `subset` is `image_names_subset`;
`submaps` are the frame sets handed to `solver.add_points` so far (the solver
map's submaps); `loops` is the pose graph's loop-closure counter; `trace`
records collaborator calls; `err` is the pending Python exception, which
aborts the rest of the run. -/
structure SolverState where
  subset : List String
  submaps : List (List String)
  loops : Nat
  trace : List Event
  err : Option Exn
deriving DecidableEq

/-- `l1` occurs at the start of `l2`. -/
def startsWithChars : List Char → List Char → Bool
  | [], _ => true
  | _ :: _, [] => false
  | a :: as, b :: bs => a == b && startsWithChars as bs

/-- `l1` occurs contiguously somewhere inside `l2` (Python's `in`). -/
def containsChars (l1 : List Char) : List Char → Bool
  | [] => startsWithChars l1 []
  | b :: bs => startsWithChars l1 (b :: bs) || containsChars l1 bs

/-- `hay` ends with `suffix` (Python's `endswith`). -/
def endsWithChars (hay suffix : List Char) : Bool :=
  startsWithChars suffix.reverse hay.reverse

/-- `f.lower()` (line 79), as a character list; Python's `str.lower` on the
ASCII file names handled here agrees with per-character lowering. -/
def lowerChars (f : String) : List Char := f.toList.map Char.toLower

/-- `"depth" not in f.lower()` (line 79): Python substring containment. -/
def containsDepth (f : String) : Bool :=
  containsChars "depth".toList (lowerChars f)

/-- `f.lower().endswith((".jpg", ".png", ".jpeg"))` (line 79). -/
def hasImageExt (f : String) : Bool :=
  endsWithChars (lowerChars f) ".jpg".toList
    || endsWithChars (lowerChars f) ".png".toList
    || endsWithChars (lowerChars f) ".jpeg".toList

/-- The filter of line 77-80 selecting valid images from the extracted files. -/
def isValidImage (f : String) : Bool :=
  !containsDepth f && hasImageExt f

/-- Line 88: a local constant of `run_slam`, not a configuration parameter. -/
def use_optical_flow_downsample : Bool := true

/-- `image_names_subset[-1:]` (line 118): the last element as a list, `[]`
for the empty list. -/
def takeLast1 (l : List String) : List String := l.drop (l.length - 1)

/-- Lines 111-118: if the subset reached `submap_size + 1` or the current
frame is the last raw path, run the submap-completion sequence
(run_predictions, add_points, optimize, update_submap_homographies) and keep
only the subset's last element.  A collaborator failure records the pending
exception, which aborts the remainder of the run. -/
def finalizeCheck (o : Oracles) (cfg : Config) (lastPath p : String)
    (st : SolverState) : SolverState :=
  if st.subset.length = cfg.submap_size + 1 ∨ p = lastPath then
    match o.predictOk st.submaps.length with
    | .error e => { st with trace := st.trace ++ [Event.predict st.subset], err := some e }
    | .ok _ =>
      let st2 := { st with trace := st.trace ++ [Event.predict st.subset],
                           loops := st.loops + o.loopsAdded st.submaps.length }
      match o.addPointsOk st.submaps.length with
      | .error e => { st2 with trace := st2.trace ++ [Event.addPoints st.subset], err := some e }
      | .ok _ =>
        let st3 := { st2 with trace := st2.trace ++ [Event.addPoints st.subset],
                              submaps := st2.submaps ++ [st.subset] }
        match o.optimizeOk st.submaps.length with
        | .error e => { st3 with trace := st3.trace ++ [Event.optimize], err := some e }
        | .ok _ =>
          let st4 := { st3 with trace := st3.trace ++ [Event.optimize] }
          match o.propagateOk st.submaps.length with
          | .error e => { st4 with trace := st4.trace ++ [Event.propagate], err := some e }
          | .ok _ =>
            { st4 with trace := st4.trace ++ [Event.propagate],
                       subset := takeLast1 st.subset }
  else st

/-- Lines 101-118, one iteration of `for image_name in image_paths`.  With
`ofd` (the value of `use_optical_flow_downsample`) set, the gate is consulted;
otherwise the frame is appended unconditionally (the `else` branch of line
107-108).  A pending exception skips the body (the Python exception has
unwound past the loop). -/
def stepSlam (ofd : Bool) (o : Oracles) (cfg : Config) (lastPath : String)
    (i : Nat) (p : String) (st : SolverState) : SolverState :=
  if st.err.isSome then st
  else if ofd then
    match o.gate cfg.min_disparity i with
    | .error e => { st with trace := st.trace ++ [Event.examine p], err := some e }
    | .ok b =>
      let st1 := { st with
        subset := if b then st.subset ++ [p] else st.subset,
        trace := st.trace ++ [Event.examine p, if b then Event.accept p else Event.reject p] }
      finalizeCheck o cfg lastPath p st1
  else
    finalizeCheck o cfg lastPath p
      { st with subset := st.subset ++ [p], trace := st.trace ++ [Event.accept p] }

/-- The whole `for image_name in image_paths` loop, threading the raw-frame
index used to address the gate oracle. -/
def loopFrames (ofd : Bool) (o : Oracles) (cfg : Config) (lastPath : String) :
    Nat → List String → SolverState → SolverState
  | _, [], st => st
  | i, p :: rest, st =>
      loopFrames ofd o cfg lastPath (i + 1) rest (stepSlam ofd o cfg lastPath i p st)

def errorMessage (e : Exn) : String :=
  "Error during SLAM processing: " ++ e.msg ++ "\n" ++ e.tb

def noImagesMessage : String :=
  "Error: No valid images found in the zip file. Please upload a zip containing .jpg, .jpeg, or .png images."

def completedMessage (numSubmaps numLoops : Nat) : String :=
  "VGGT-SLAM completed with " ++ toString numSubmaps ++ " submaps and "
    ++ toString numLoops ++ " loop closures."

/-- Lines 85-118 as one unit: sort the valid images, build the model and the
solver (the initial trace events), and run the main loop over the sorted
stream. -/
def slamState (o : Oracles) (cfg : Config) (extractedFiles : List String) : SolverState :=
  let image_paths := extractedFiles.filter isValidImage
  let sorted := o.sortImages image_paths
  loopFrames use_optical_flow_downsample o cfg (sorted.getLastD "") 0 sorted
    { subset := [], submaps := [], loops := 0,
      trace := [Event.sortEvent, Event.getModel, Event.mkSolver], err := none }

/-- Lines 120-131: from the loop's final state, refresh visualization, export
the scene, and report submap and loop-closure counts; a pending or newly
raised exception falls to the `except` clause's `(None, error message)`. -/
def finishRun (o : Oracles) (stF : SolverState) : Option String × String × List Event :=
  match stF.err with
  | some e => (none, errorMessage e, stF.trace)
  | none =>
    match o.updateVisOk with
    | .error e => (none, errorMessage e, stF.trace ++ [Event.updateVis])
    | .ok _ =>
      match o.exportResult with
      | .error e => (none, errorMessage e, stF.trace ++ [Event.updateVis, Event.exportScene])
      | .ok glb =>
        (some glb, completedMessage stF.submaps.length stF.loops,
          stF.trace ++ [Event.updateVis, Event.exportScene])

/-- The exception `finishRun` would report, if any. -/
def finishErr (o : Oracles) (stF : SolverState) : Option Exn :=
  match stF.err with
  | some e => some e
  | none =>
    match o.updateVisOk with
    | .error e => some e
    | .ok _ =>
      match o.exportResult with
      | .error e => some e
      | .ok _ => none

/-- `run_slam` (lines 62-131) from the extracted archive contents onward:
filter valid images; if none, return the specific input error (lines 82-83);
otherwise sort, build the model and solver, run the main loop, then refresh
visualization, export, and report submap and loop counts.  Any recorded
exception yields `(None, error message)` exactly as the `except` clause does.
Returns (glb_path, status_message) plus the event trace. -/
def run_slam (o : Oracles) (cfg : Config) (extractedFiles : List String) :
    Option String × String × List Event :=
  if (extractedFiles.filter isValidImage).length = 0 then
    (none, noImagesMessage, [])
  else
    finishRun o (slamState o cfg extractedFiles)

/-- The first exception raised during a run of `run_slam`, if any. -/
def runError (o : Oracles) (cfg : Config) (extractedFiles : List String) : Option Exn :=
  if (extractedFiles.filter isValidImage).length = 0 then none
  else
    finishErr o (slamState o cfg extractedFiles)


/-- Collaborators that never raise: the gate follows a fixed verdict sequence
`g`, the k-th `run_predictions` records `lf k` loop closures, and export
produces `scene.glb`. -/
def pureOracles (g : Nat → Bool) (lf : Nat → Nat) : Oracles where
  sortImages := id
  gate := fun _ i => .ok (g i)
  predictOk := fun _ => .ok ()
  loopsAdded := lf
  addPointsOk := fun _ => .ok ()
  optimizeOk := fun _ => .ok ()
  propagateOk := fun _ => .ok ()
  updateVisOk := .ok ()
  exportResult := .ok "scene.glb"

/-- A configuration with `submap_size = m` and the demo defaults elsewhere. -/
def baseConfig (m : Nat) : Config :=
  { use_sim3 := false, submap_size := m, max_loops := 1,
    min_disparity := 50, conf_threshold := 25 }

def initState : SolverState :=
  { subset := [], submaps := [], loops := 0, trace := [], err := none }

/-- The main loop of `run_slam` on already-sorted paths, under non-failing
collaborators whose gate verdicts are `g`.  This is the object of the
windowing claims. -/
def pureRun (m : Nat) (g : Nat → Bool) (paths : List String) : SolverState :=
  loopFrames use_optical_flow_downsample (pureOracles g (fun _ => 0)) (baseConfig m)
    (paths.getLastD "") 0 paths initState

/-- The frames the gate admits, from raw index `i` on. -/
def acceptedFrom (g : Nat → Bool) : Nat → List String → List String
  | _, [] => []
  | i, p :: rest => (if g i then [p] else []) ++ acceptedFrom g (i + 1) rest

/-- All frames admitted over the raw stream. -/
def accepted (g : Nat → Bool) (paths : List String) : List String :=
  acceptedFrom g 0 paths

/-- Number of submaps closed by the capacity rule after `a` admissions with
`submap_size = m` (capacity `m+1`, one-frame carryover). -/
def closedCount (m a : Nat) : Nat := if a = 0 then 0 else (a - 1) / m

/-- The `i`-th submap as a slice of the admitted stream: `m+1` frames starting
at position `i*m` (consecutive slices share one frame). -/
def sliceAt (m : Nat) (adm : List String) (i : Nat) : List String :=
  (adm.drop (i * m)).take (m + 1)

def isAccept : Event → Bool
  | .accept _ => true
  | _ => false

def isExamine : Event → Bool
  | .examine _ => true
  | _ => false

/-- Events of the submap-completion sequence. -/
def isProcEvent : Event → Bool
  | .predict _ => true
  | .addPoints _ => true
  | .optimize => true
  | .propagate => true
  | _ => false

def acceptCount (t : List Event) : Nat := (t.filter isAccept).length

/-- Number of events of the trace consulting the keyframe gate. -/
def examineCount (t : List Event) : Nat := (t.filter isExamine).length

/-- The submap-completion sequence the driver must run for a finalized
submap `s`, in order. -/
def blockOf (s : List String) : List Event :=
  [Event.predict s, Event.addPoints s, Event.optimize, Event.propagate]

/-- Relation between the frames admitted so far and the loop state: `k`
submaps have been closed, the open buffer holds the trailing `d` admitted
frames starting at position `k*m` (the carryover plus newer frames), and the
closed submaps are the overlapping `(m+1)`-slices of the admitted stream. -/
def WInv (m : Nat) (adm : List String) (st : SolverState) : Prop :=
  st.err = none ∧
  ∃ k d, adm.length = k * m + d ∧ d ≤ m ∧
    (adm.length = 0 → k = 0 ∧ d = 0) ∧
    (adm.length ≠ 0 → 1 ≤ d) ∧
    st.subset = adm.drop (k * m) ∧
    st.submaps = (List.range k).map (sliceAt m adm)

/-- One Gradio slider declaration of the `demo` interface (lines 143-146):
its numeric bounds, step, and default value. -/
structure Slider where
  lo : ℚ
  hi : ℚ
  step : ℚ
  value : ℚ
deriving DecidableEq

/-- `gr.Slider(4, 32, value=16, step=1, label="Submap Size")` (line 143). -/
def demo_submap_size_slider : Slider := { lo := 4, hi := 32, step := 1, value := 16 }

/-- `gr.Slider(0, 5, value=1, step=1, ...)` (line 144). -/
def demo_max_loops_slider : Slider := { lo := 0, hi := 5, step := 1, value := 1 }

/-- `gr.Slider(0.0, 100.0, value=50.0, step=1.0, ...)` (line 145). -/
def demo_min_disparity_slider : Slider := { lo := 0, hi := 100, step := 1, value := 50 }

/-- `gr.Slider(0.0, 100.0, value=25.0, step=1.0, ...)` (line 146). -/
def demo_conf_threshold_slider : Slider := { lo := 0, hi := 100, step := 1, value := 25 }

/-- A parameter value lies in a slider's declared range. -/
def Slider.inRange (s : Slider) (x : ℚ) : Prop := s.lo ≤ x ∧ x ≤ s.hi

/-- Collaborators whose very first gate call (decoding the first frame)
raises `e`. -/
def failingGateOracles (e : Exn) : Oracles :=
  { pureOracles (fun _ => true) (fun _ => 0) with gate := fun _ _ => .error e }

/-- Non-failing collaborators that admit every frame, record one loop closure
per submap, and export to `a.glb`. -/
def oraclesA : Oracles :=
  { pureOracles (fun _ => true) (fun _ => 1) with exportResult := .ok "a.glb" }

/-- Same observable gate/sort/loop behaviour as `oraclesA`, but a different
export path: a second deterministic behaviour of the collaborators. -/
def oraclesB : Oracles :=
  { pureOracles (fun _ => true) (fun _ => 1) with exportResult := .ok "b.glb" }

/-- Every geometry-prediction event in the trace is immediately followed by
the ingestion, optimization, and propagation events for the same submap: the
submap-completion sequence runs as one uninterrupted block. -/
def BlocksIntact (t : List Event) : Prop :=
  ∀ u S v, t = u ++ Event.predict S :: v →
    v.take 3 = [Event.addPoints S, Event.optimize, Event.propagate]

/-! ### Basic reductions of the loop body under non-failing collaborators -/

theorem finalizeCheck_pureO (g : Nat → Bool) (lf : Nat → Nat) (m : Nat) (las p : String)
    (st : SolverState) :
    finalizeCheck (pureOracles g lf) (baseConfig m) las p st =
      if st.subset.length = m + 1 ∨ p = las then
        { st with subset := takeLast1 st.subset,
                  submaps := st.submaps ++ [st.subset],
                  loops := st.loops + lf st.submaps.length,
                  trace := st.trace ++ blockOf st.subset }
      else st := by
  by_cases h : st.subset.length = m + 1 ∨ p = las
  · simp [finalizeCheck, baseConfig, pureOracles, h, blockOf]
  · simp [finalizeCheck, baseConfig, pureOracles, h]

theorem stepSlam_pureO (g : Nat → Bool) (lf : Nat → Nat) (m : Nat) (las p : String) (i : Nat)
    (st : SolverState) (he : st.err = none) :
    stepSlam true (pureOracles g lf) (baseConfig m) las i p st =
      finalizeCheck (pureOracles g lf) (baseConfig m) las p
        { st with subset := if g i then st.subset ++ [p] else st.subset,
                  trace := st.trace ++
                    [Event.examine p, if g i then Event.accept p else Event.reject p] } := by
  simp [stepSlam, he, pureOracles]

theorem loopFrames_append (ofd : Bool) (o : Oracles) (cfg : Config) (las : String) :
    ∀ (l1 l2 : List String) (i : Nat) (st : SolverState),
      loopFrames ofd o cfg las i (l1 ++ l2) st =
        loopFrames ofd o cfg las (i + l1.length) l2 (loopFrames ofd o cfg las i l1 st) := by
  intro l1
  induction l1 with
  | nil => intro l2 i st; simp [loopFrames]
  | cons p rest ih =>
    intro l2 i st
    simp only [List.cons_append, loopFrames, List.length_cons, List.append_eq]
    rw [ih]
    congr 1
    omega

theorem acceptedFrom_append (g : Nat → Bool) :
    ∀ (l1 l2 : List String) (i : Nat),
      acceptedFrom g i (l1 ++ l2) =
        acceptedFrom g i l1 ++ acceptedFrom g (i + l1.length) l2 := by
  intro l1
  induction l1 with
  | nil => intro l2 i; simp [acceptedFrom]
  | cons p rest ih =>
    intro l2 i
    simp only [List.cons_append, acceptedFrom, List.length_cons, List.append_assoc, List.append_eq]
    rw [ih]
    congr 3
    omega

theorem acceptedFrom_sublist (g : Nat → Bool) :
    ∀ (l : List String) (i : Nat), (acceptedFrom g i l).Sublist l := by
  intro l
  induction l with
  | nil => intro i; simp [acceptedFrom]
  | cons p rest ih =>
    intro i
    by_cases h : g i
    · simpa [acceptedFrom, h] using (ih (i + 1)).cons₂ p
    · simpa [acceptedFrom, h] using (ih (i + 1)).cons p

/-- A complete slice is unaffected by frames admitted later. -/
theorem sliceAt_append_of_complete (m : Nat) (adm l2 : List String) (i : Nat)
    (h : i * m + (m + 1) ≤ adm.length) :
    sliceAt m (adm ++ l2) i = sliceAt m adm i := by
  unfold sliceAt
  rw [List.drop_append_of_le_length (by omega), List.take_append_of_le_length]
  rw [List.length_drop]; omega

theorem finalizeCheck_pureO_pos (g : Nat → Bool) (lf : Nat → Nat) (m : Nat) (las p : String)
    (st : SolverState) (h : st.subset.length = m + 1 ∨ p = las) :
    finalizeCheck (pureOracles g lf) (baseConfig m) las p st =
      { st with subset := takeLast1 st.subset,
                submaps := st.submaps ++ [st.subset],
                loops := st.loops + lf st.submaps.length,
                trace := st.trace ++ blockOf st.subset } := by
  rw [finalizeCheck_pureO, if_pos h]

theorem finalizeCheck_pureO_neg (g : Nat → Bool) (lf : Nat → Nat) (m : Nat) (las p : String)
    (st : SolverState) (h : ¬(st.subset.length = m + 1 ∨ p = las)) :
    finalizeCheck (pureOracles g lf) (baseConfig m) las p st = st := by
  rw [finalizeCheck_pureO, if_neg h]

/-- One loop iteration on a frame that is not the last raw path preserves the
window invariant, the admitted stream growing by the gate's verdict. -/
theorem WInv_step (m : Nat) (hm : 1 ≤ m) (g : Nat → Bool) (lf : Nat → Nat) (las p : String)
    (i : Nat) (adm : List String) (st : SolverState) (hp : p ≠ las) (hw : WInv m adm st) :
    WInv m (adm ++ (if g i then [p] else []))
      (stepSlam true (pureOracles g lf) (baseConfig m) las i p st) := by
  obtain ⟨he, k, d, hlen, hdm, hz, hpos, hsub, hmaps⟩ := hw
  have hkm : k * m ≤ adm.length := by rw [hlen]; exact Nat.le_add_right _ _
  have hsublen : st.subset.length = d := by
    rw [hsub, List.length_drop, hlen, Nat.add_sub_cancel_left]
  rw [stepSlam_pureO g lf m las p i st he]
  by_cases hg : g i
  · simp only [hg, if_true]
    by_cases hclose : d = m
    · -- capacity reached: a submap closes, the carryover frame seeds the next
      rw [finalizeCheck_pureO_pos g lf m las p _
        (Or.inl (by simp [hsublen, hclose]))]
      refine ⟨he, k + 1, 1, ?_, hm, ?_, ?_, ?_, ?_⟩
      · simp only [List.length_append, List.length_cons, List.length_nil, hlen, hclose,
          Nat.succ_mul]
      · intro h; simp at h
      · intro _; exact le_refl 1
      · -- new buffer = the closed submap's last frame = head of the next slice
        show takeLast1 (st.subset ++ [p]) = (adm ++ [p]).drop ((k + 1) * m)
        have h1 : st.subset.length = m := by rw [hsublen, hclose]
        have h2 : (k + 1) * m = adm.length := by
          rw [Nat.succ_mul, hlen, hclose]
        rw [h2, List.drop_left]
        unfold takeLast1
        rw [List.length_append, h1]
        simp only [List.length_cons, List.length_nil]
        rw [show m + 1 - 1 = m from rfl, ← h1, List.drop_left]
      · -- closed submaps = slices of the grown admitted stream
        show st.submaps ++ [st.subset ++ [p]] = _
        rw [List.range_succ, List.map_append, List.map_singleton]
        have hstable : (List.range k).map (sliceAt m (adm ++ [p])) =
            (List.range k).map (sliceAt m adm) := by
          apply List.map_congr_left
          intro j hj
          have hjk : j < k := List.mem_range.mp hj
          apply sliceAt_append_of_complete
          have : (j + 1) * m ≤ k * m := Nat.mul_le_mul_right m hjk
          rw [Nat.succ_mul] at this
          rw [hlen, hclose]; omega
        have hnew : sliceAt m (adm ++ [p]) k = st.subset ++ [p] := by
          unfold sliceAt
          rw [List.drop_append_of_le_length hkm, ← hsub]
          have : (st.subset ++ [p]).length = m + 1 := by simp [hsublen, hclose]
          rw [← this, List.take_length]
        rw [hstable, hnew, ← hmaps]
    · -- buffer below capacity: just append
      rw [finalizeCheck_pureO_neg g lf m las p _ ?hc]
      case hc =>
        intro hor
        rcases hor with h1 | h2
        · simp only [List.length_append, hsublen, List.length_cons, List.length_nil] at h1
          omega
        · exact hp h2
      refine ⟨he, k, d + 1, ?_, ?_, ?_, ?_, ?_, ?_⟩
      · simp only [List.length_append, List.length_cons, List.length_nil, hlen]; omega
      · omega
      · intro h; simp at h
      · intro _; omega
      · show st.subset ++ [p] = (adm ++ [p]).drop (k * m)
        rw [List.drop_append_of_le_length hkm, hsub]
      · show st.submaps = _
        rw [hmaps]
        apply List.map_congr_left
        intro j hj
        have hjk : j < k := List.mem_range.mp hj
        have hane : adm.length ≠ 0 := by
          intro h0
          rcases hz h0 with ⟨hk0, _⟩
          omega
        have hd1 : 1 ≤ d := hpos hane
        refine (sliceAt_append_of_complete m adm [p] j ?_).symm
        have : (j + 1) * m ≤ k * m := Nat.mul_le_mul_right m hjk
        rw [Nat.succ_mul] at this
        rw [hlen]; omega
  · -- rejected frame: state unchanged apart from the trace
    have hgf : g i = false := by simpa using hg
    rw [finalizeCheck_pureO_neg g lf m las p _ ?hc]
    case hc =>
      intro hor
      rcases hor with h1 | h2
      · simp only [hgf] at h1
        simp only [Bool.false_eq_true, if_false] at h1
        rw [hsublen] at h1
        omega
      · exact hp h2
    exact ⟨he, k, d, by simpa [hgf] using hlen, hdm, by simpa [hgf] using hz,
      by simpa [hgf] using hpos, by simpa [hgf] using hsub, by simpa [hgf] using hmaps⟩

theorem WInv_init (m : Nat) (tr : List Event) :
    WInv m [] { subset := [], submaps := [], loops := 0, trace := tr, err := none } :=
  ⟨rfl, 0, 0, by simp, by simp, fun _ => ⟨rfl, rfl⟩, by simp, by simp, by simp⟩

/-- The loop invariant is preserved over any stretch of frames none of which
is the last raw path. -/
theorem WInv_loop (m : Nat) (hm : 1 ≤ m) (g : Nat → Bool) (lf : Nat → Nat) (las : String) :
    ∀ (l : List String) (i : Nat) (adm : List String) (st : SolverState),
      (∀ p ∈ l, p ≠ las) → WInv m adm st →
      WInv m (adm ++ acceptedFrom g i l)
        (loopFrames true (pureOracles g lf) (baseConfig m) las i l st) := by
  intro l
  induction l with
  | nil => intro i adm st _ hw; simpa [loopFrames, acceptedFrom] using hw
  | cons p rest ih =>
    intro i adm st hne hw
    have h1 := WInv_step m hm g lf las p i adm st (hne p (List.mem_cons_self p rest)) hw
    have h2 := ih (i + 1) (adm ++ (if g i then [p] else [])) _
      (fun x hx => hne x (List.mem_cons_of_mem p hx)) h1
    simp only [loopFrames]
    simpa [acceptedFrom, List.append_assoc] using h2

/-- The final raw frame always triggers a finalization; the run's submaps are
the overlapping slices of the full admitted stream, one more than the number
of capacity-closed submaps of the prefix. -/
theorem last_step_submaps (m : Nat) (hm : 1 ≤ m) (g : Nat → Bool) (lf : Nat → Nat)
    (q : String) (i : Nat) (adm : List String) (st : SolverState) (hw : WInv m adm st) :
    ∃ k d, adm.length = k * m + d ∧ d ≤ m ∧
      (adm.length = 0 → k = 0 ∧ d = 0) ∧ (adm.length ≠ 0 → 1 ≤ d) ∧
      (stepSlam true (pureOracles g lf) (baseConfig m) q i q st).submaps =
        (List.range (k + 1)).map (sliceAt m (adm ++ (if g i then [q] else []))) := by
  obtain ⟨he, k, d, hlen, hdm, hz, hpos, hsub, hmaps⟩ := hw
  refine ⟨k, d, hlen, hdm, hz, hpos, ?_⟩
  have hkm : k * m ≤ adm.length := by rw [hlen]; exact Nat.le_add_right _ _
  have hsublen : st.subset.length = d := by
    rw [hsub, List.length_drop, hlen, Nat.add_sub_cancel_left]
  rw [stepSlam_pureO g lf m q q i st he]
  rw [finalizeCheck_pureO_pos g lf m q q _ (Or.inr rfl)]
  by_cases hg : g i
  · -- the last raw frame is admitted before the flush
    simp only [hg, if_true]
    show st.submaps ++ [st.subset ++ [q]] = _
    rw [List.range_succ, List.map_append, List.map_singleton]
    have hstable : (List.range k).map (sliceAt m (adm ++ [q])) =
        (List.range k).map (sliceAt m adm) := by
      apply List.map_congr_left
      intro j hj
      have hjk : j < k := List.mem_range.mp hj
      have hane : adm.length ≠ 0 := by
        intro h0
        rcases hz h0 with ⟨hk0, _⟩
        omega
      have hd1 : 1 ≤ d := hpos hane
      apply sliceAt_append_of_complete
      have : (j + 1) * m ≤ k * m := Nat.mul_le_mul_right m hjk
      rw [Nat.succ_mul] at this
      rw [hlen]; omega
    have hnew : sliceAt m (adm ++ [q]) k = st.subset ++ [q] := by
      unfold sliceAt
      rw [List.drop_append_of_le_length hkm, ← hsub]
      apply List.take_of_length_le
      simp [hsublen]; omega
    rw [hstable, hnew, ← hmaps]
  · -- the last raw frame is rejected: the flush still runs on the buffer
    have hgf : g i = false := by simpa using hg
    simp only [hgf, Bool.false_eq_true, if_false, List.append_nil]
    show st.submaps ++ [st.subset] = _
    rw [List.range_succ, List.map_append, List.map_singleton, ← hmaps]
    have hnew : sliceAt m adm k = st.subset := by
      unfold sliceAt
      rw [← hsub]
      apply List.take_of_length_le
      rw [hsublen]; omega
    rw [hnew]

/-- Master characterization of the main loop under non-failing collaborators:
for a duplicate-free raw stream `init ++ [q]`, the finalized submaps are
exactly the `k+1` overlapping `(m+1)`-slices of the admitted stream, where
`k` capacity closes happened over the prefix (`admitted prefix length
= k*m + d` with `1 ≤ d ≤ m` once nonempty). -/
theorem pureRun_master (m : Nat) (hm : 1 ≤ m) (g : Nat → Bool) (lf : Nat → Nat)
    (init : List String) (q : String) (hq : q ∉ init) :
    ∃ k d, (acceptedFrom g 0 init).length = k * m + d ∧ d ≤ m ∧
      ((acceptedFrom g 0 init).length = 0 → k = 0 ∧ d = 0) ∧
      ((acceptedFrom g 0 init).length ≠ 0 → 1 ≤ d) ∧
      accepted g (init ++ [q]) =
        acceptedFrom g 0 init ++ (if g init.length then [q] else []) ∧
      (loopFrames true (pureOracles g lf) (baseConfig m) ((init ++ [q]).getLastD "") 0
          (init ++ [q]) initState).submaps =
        (List.range (k + 1)).map (sliceAt m (accepted g (init ++ [q]))) := by
  have hdec : accepted g (init ++ [q]) =
      acceptedFrom g 0 init ++ (if g init.length then [q] else []) := by
    unfold accepted
    rw [acceptedFrom_append]
    simp [acceptedFrom]
  rw [List.getLastD_concat, loopFrames_append]
  have hinv := WInv_loop m hm g lf q init 0 [] initState
    (fun p hp hpq => hq (hpq ▸ hp)) (WInv_init m [])
  rw [List.nil_append] at hinv
  obtain ⟨k, d, h1, h2, h3, h4, h5⟩ :=
    last_step_submaps m hm g lf q (0 + init.length) _ _ hinv
  refine ⟨k, d, h1, h2, h3, h4, hdec, ?_⟩
  rw [hdec]
  simp only [Nat.zero_add] at h5 ⊢
  simpa [loopFrames] using h5

theorem ceilDiv_pin (m k d : Nat) (hm : 1 ≤ m) (h1 : 1 ≤ d) (h2 : d ≤ m) :
    (k * m + d + m - 1) / m = k + 1 := by
  have hshape : k * m + d + m - 1 = (d - 1) + m * (k + 1) := by
    have hmm : m * (k + 1) = k * m + m := by ring
    omega
  rw [hshape, Nat.add_mul_div_left _ _ (show 0 < m by omega),
    Nat.div_eq_of_lt (show d - 1 < m by omega)]
  omega

theorem length_sliceAt_of_complete (m : Nat) (adm : List String) (j : Nat)
    (h : j * m + (m + 1) ≤ adm.length) : (sliceAt m adm j).length = m + 1 := by
  unfold sliceAt
  rw [List.length_take, List.length_drop]
  omega

/-! ### C1: submap count and shape -/

/-- C1 (amended): for a duplicate-free raw stream whose final raw frame is
admitted and with `N ≥ 2` admitted frames in total, the number of finalized
submaps is `⌈(N-1)/(C-1)⌉` where `C-1 = submap_size`, and every submap except
possibly the final one has exactly `C = submap_size + 1` frames.  (As stated
the claim fails for `N = 1` and for runs whose trailing raw frames are all
rejected: the end-of-stream flush then adds one further submap; see the
counterexample.) -/
theorem c1_submap_count (m : Nat) (hm : 1 ≤ m) (g : Nat → Bool) (init : List String)
    (q : String) (hq : q ∉ init) (hlast : g init.length = true)
    (hN : 2 ≤ (accepted g (init ++ [q])).length) :
    (pureRun m g (init ++ [q])).submaps.length =
      ((accepted g (init ++ [q])).length - 1 + m - 1) / m ∧
    ∀ s ∈ (pureRun m g (init ++ [q])).submaps.dropLast, s.length = m + 1 := by
  obtain ⟨k, d, h1, h2, h3, h4, hdec, h5⟩ :=
    pureRun_master m hm g (fun _ => 0) init q hq
  have hrun : (pureRun m g (init ++ [q])).submaps =
      (List.range (k + 1)).map (sliceAt m (accepted g (init ++ [q]))) := by
    unfold pureRun use_optical_flow_downsample
    exact h5
  have hA : (accepted g (init ++ [q])).length = k * m + d + 1 := by
    rw [hdec, hlast]
    simp [h1]
  have hd1 : 1 ≤ d := by
    apply h4
    intro h0
    rw [hA] at hN
    rcases h3 (by omega) with ⟨hk0, hd0⟩
    omega
  constructor
  · rw [hrun, List.length_map, List.length_range, hA]
    have : k * m + d + 1 - 1 + m - 1 = k * m + d + m - 1 := by omega
    rw [this, ceilDiv_pin m k d hm hd1 h2]
  · intro s hs
    rw [hrun, List.range_succ, List.map_append, List.map_singleton,
      List.dropLast_concat] at hs
    obtain ⟨j, hj, rfl⟩ := List.mem_map.mp hs
    have hjk : j < k := List.mem_range.mp hj
    apply length_sliceAt_of_complete
    have hmul : (j + 1) * m ≤ k * m := Nat.mul_le_mul_right m hjk
    rw [Nat.succ_mul] at hmul
    rw [hA]; omega

/-- C1 counterexample, refuting the claim as stated in two ways.  First: a run
with `N = 1` admitted frame (first of two raw frames admitted, second
rejected) produces `1` finalized submap while the claimed formula
`⌈(N-1)/(C-1)⌉` yields `0`.  Second: a run with `N = 17` admitted frames and
`submap_size = 16` whose trailing raw frame is rejected produces `2` submaps
(the forced end-of-stream flush emits the lone carryover frame as an extra
submap) while the formula yields `1`. -/
theorem c1_counterexample :
    ((pureRun 16 (fun i => decide (i = 0)) ["0.jpg", "1.jpg"]).submaps.length = 1 ∧
      (accepted (fun i => decide (i = 0)) ["0.jpg", "1.jpg"]).length = 1 ∧
      ((1 : Nat) - 1 + 16 - 1) / 16 = 0) ∧
    ((pureRun 16 (fun i => decide (i < 17))
        ((List.range 18).map (fun n => toString n ++ ".jpg"))).submaps.length = 2 ∧
      (accepted (fun i => decide (i < 17))
        ((List.range 18).map (fun n => toString n ++ ".jpg"))).length = 17 ∧
      ((17 : Nat) - 1 + 16 - 1) / 16 = 1) := by
  decide

/-- Scenario B as the witness: 33 admitted frames at `submap_size = 16` give
exactly `⌈32/16⌉ = 2` submaps, `frames[0..16]` and `frames[16..32]`. -/
theorem c1_submap_count_witness :
    (pureRun 16 (fun _ => true)
        ((List.range 32).map (fun n => toString n ++ ".jpg") ++ ["32.jpg"])).submaps.length =
      ((accepted (fun _ => true)
        ((List.range 32).map (fun n => toString n ++ ".jpg") ++ ["32.jpg"])).length - 1 + 16 - 1) / 16 ∧
    (pureRun 16 (fun _ => true)
        ((List.range 32).map (fun n => toString n ++ ".jpg") ++ ["32.jpg"])).submaps =
      [((List.range 32).map (fun n => toString n ++ ".jpg") ++ ["32.jpg"]).take 17,
       ((List.range 32).map (fun n => toString n ++ ".jpg") ++ ["32.jpg"]).drop 16] ∧
    ((33 : Nat) - 1 + 16 - 1) / 16 = 2 :=
  ⟨(c1_submap_count 16 (by decide) (fun _ => true) _ "32.jpg" (by decide) rfl (by decide)).1,
    by decide, by decide⟩

/-! ### C2: consecutive submaps share exactly the carryover frame -/

theorem takeLast1_of_ne_nil (l : List String) (h : l ≠ []) :
    takeLast1 l = [l.getLastD ""] := by
  obtain ⟨l', a, hl⟩ := (List.eq_nil_or_concat l).resolve_left h
  subst hl
  rw [List.concat_eq_append]
  unfold takeLast1
  rw [List.length_append, List.getLastD_concat]
  simp only [List.length_cons, List.length_nil, Nat.add_sub_cancel]
  exact List.drop_left l' [a]

theorem inter_eq_filter (l1 l2 : List String) :
    l1.inter l2 = l1.filter (fun a => a ∈ l2) := by
  simp [List.inter]

theorem getD_range_map (f : Nat → List String) (n i : Nat) (h : i < n) :
    (((List.range n).map f).getD i []) = f i := by
  unfold List.getD
  rw [List.get?_map, List.get?_range h]
  rfl

theorem sliceAt_head? (m : Nat) (adm : List String) (j : Nat) (h : j * m < adm.length) :
    (sliceAt m adm j).head? = adm.get? (j * m) := by
  unfold sliceAt
  rw [← List.get?_zero, List.get?_take (Nat.succ_pos m), List.get?_drop, Nat.add_zero]

theorem sliceAt_getLast? (m : Nat) (adm : List String) (j : Nat)
    (h : j * m + (m + 1) ≤ adm.length) :
    (sliceAt m adm j).getLast? = adm.get? ((j + 1) * m) := by
  rw [List.getLast?_eq_get?, length_sliceAt_of_complete m adm j h]
  unfold sliceAt
  rw [show m + 1 - 1 = m from rfl, List.get?_take (Nat.lt_succ_self m), List.get?_drop]
  congr 1
  rw [Nat.succ_mul]

theorem sliceAt_decomp (m : Nat) (adm : List String) (j : Nat) (x : String)
    (hx : adm.get? ((j + 1) * m) = some x) :
    sliceAt m adm j = (adm.drop (j * m)).take m ++ [x] := by
  unfold sliceAt
  rw [List.take_succ]
  congr 1
  have hsome : (adm.drop (j * m))[m]? = some x := by
    rw [List.getElem?_drop]
    rw [show j * m + m = (j + 1) * m from (Nat.succ_mul j m).symm]
    rw [← List.get?_eq_getElem?]
    exact hx
  rw [hsome]
  rfl

theorem take_disjoint_drop (adm : List String) (n : Nat) (hnd : adm.Nodup) :
    (adm.take n).Disjoint (adm.drop n) := by
  apply List.disjoint_of_nodup_append
  rwa [List.take_append_drop]

theorem front_subset_take (m : Nat) (adm : List String) (j : Nat) :
    ∀ y ∈ (adm.drop (j * m)).take m, y ∈ adm.take ((j + 1) * m) := by
  intro y hy
  rw [List.take_drop] at hy
  rw [show (j + 1) * m = j * m + m from Nat.succ_mul j m]
  exact List.drop_subset _ _ hy

/-- Consecutive slices of a duplicate-free stream share exactly their
boundary element. -/
theorem sliceAt_inter_succ (m : Nat) (adm : List String) (j : Nat) (hnd : adm.Nodup)
    (hc : j * m + (m + 1) ≤ adm.length) (x : String)
    (hx : adm.get? ((j + 1) * m) = some x) :
    (sliceAt m adm j).inter (sliceAt m adm (j + 1)) = [x] := by
  have hdisj := take_disjoint_drop adm ((j + 1) * m) hnd
  have hxmem : x ∈ sliceAt m adm (j + 1) := by
    apply List.mem_of_mem_head?
    rw [sliceAt_head? m adm (j + 1) ?hlt, hx]
    case hlt =>
      have h1 : (j + 1) * m = j * m + m := Nat.succ_mul j m
      omega
    rfl
  have hfront : ∀ y ∈ (adm.drop (j * m)).take m, ¬ y ∈ sliceAt m adm (j + 1) := by
    intro y hy hy2
    exact hdisj (front_subset_take m adm j y hy)
      (List.take_subset _ _ hy2)
  rw [sliceAt_decomp m adm j x hx, inter_eq_filter, List.filter_append]
  rw [List.filter_eq_nil_iff.mpr (by intro a ha; simpa using hfront a ha)]
  simp only [List.nil_append, List.filter_cons, List.filter_nil]
  rw [if_pos (by simpa using hxmem)]

/-- Slices at least two apart in a duplicate-free stream are disjoint. -/
theorem sliceAt_inter_far (m : Nat) (hm : 1 ≤ m) (adm : List String) (j j' : Nat)
    (hnd : adm.Nodup) (hc : j * m + (m + 1) ≤ adm.length) (hjj : j + 2 ≤ j') :
    (sliceAt m adm j).inter (sliceAt m adm j') = [] := by
  have hdisj := take_disjoint_drop adm (j' * m) hnd
  have harith : j * m + m + 1 ≤ j' * m := by
    have h1 : (j + 2) * m ≤ j' * m := Nat.mul_le_mul_right m hjj
    have h2 : (j + 2) * m = j * m + m + m := by ring
    omega
  rw [inter_eq_filter]
  apply List.filter_eq_nil_iff.mpr
  intro y hy
  simp only [decide_eq_true_eq]
  intro hy2
  have hyt : y ∈ adm.take (j' * m) := by
    have h3 : y ∈ adm.take (j * m + (m + 1)) := by
      unfold sliceAt at hy
      rw [List.take_drop] at hy
      exact List.drop_subset _ _ hy
    have h4 : adm.take (j * m + (m + 1)) = (adm.take (j' * m)).take (j * m + (m + 1)) := by
      rw [List.take_take, min_eq_left (by omega)]
    rw [h4] at h3
    exact List.take_subset _ _ h3
  exact hdisj hyt (List.take_subset _ _ hy2)

/-- C2: in any run over a duplicate-free raw stream, each pair of consecutive
finalized submaps shares exactly one frame — the first submap's last frame is
the next submap's first frame, their intersection is exactly that frame, and
submaps two or more apart share no frame; moreover, whenever a finalization
fires on a nonempty buffer, the buffer is reset to exactly the finalized
submap's last frame. -/
theorem c2_consecutive_share_one (m : Nat) (hm : 1 ≤ m) (g : Nat → Bool) (lf : Nat → Nat)
    (init : List String) (q : String) (hnd : (init ++ [q]).Nodup) :
    (∀ i, i + 1 < (pureRun m g (init ++ [q])).submaps.length →
      ∃ x, ((pureRun m g (init ++ [q])).submaps.getD i []).getLast? = some x ∧
        ((pureRun m g (init ++ [q])).submaps.getD (i + 1) []).head? = some x ∧
        ((pureRun m g (init ++ [q])).submaps.getD i []).inter
          ((pureRun m g (init ++ [q])).submaps.getD (i + 1) []) = [x] ∧
        (∀ j, j < (pureRun m g (init ++ [q])).submaps.length → i + 2 ≤ j →
          ((pureRun m g (init ++ [q])).submaps.getD i []).inter
            ((pureRun m g (init ++ [q])).submaps.getD j []) = [])) ∧
    (∀ (las p : String) (st : SolverState),
      (st.subset.length = m + 1 ∨ p = las) → st.subset ≠ [] →
      (finalizeCheck (pureOracles g lf) (baseConfig m) las p st).subset =
        [st.subset.getLastD ""]) := by
  have hq : q ∉ init := fun hmem =>
    (List.disjoint_of_nodup_append hnd) hmem (List.mem_singleton.mpr rfl)
  obtain ⟨k, d, h1, h2, h3, h4, hdec, h5⟩ :=
    pureRun_master m hm g (fun _ => 0) init q hq
  have hrun : (pureRun m g (init ++ [q])).submaps =
      (List.range (k + 1)).map (sliceAt m (accepted g (init ++ [q]))) := by
    unfold pureRun use_optical_flow_downsample
    exact h5
  have hadm : (accepted g (init ++ [q])).Nodup :=
    (acceptedFrom_sublist g (init ++ [q]) 0).nodup hnd
  constructor
  · intro i hi
    rw [hrun, List.length_map, List.length_range] at hi
    have hik : i < k := by omega
    have haI : (acceptedFrom g 0 init).length ≠ 0 := by
      intro h0
      rcases h3 h0 with ⟨hk0, _⟩
      omega
    have hd1 : 1 ≤ d := h4 haI
    have hA : k * m + 1 ≤ (accepted g (init ++ [q])).length := by
      rw [hdec]
      by_cases hgl : g init.length <;> simp only [hgl, if_true, if_false,
        Bool.false_eq_true, List.length_append, List.length_cons, List.length_nil] <;> omega
    have hcomp : i * m + (m + 1) ≤ (accepted g (init ++ [q])).length := by
      have hmul : (i + 1) * m ≤ k * m := Nat.mul_le_mul_right m hik
      have hexp : (i + 1) * m = i * m + m := Nat.succ_mul i m
      omega
    have hlt : (i + 1) * m < (accepted g (init ++ [q])).length := by
      have hmul : (i + 1) * m ≤ k * m := Nat.mul_le_mul_right m hik
      omega
    obtain ⟨x, hx⟩ : ∃ x, (accepted g (init ++ [q])).get? ((i + 1) * m) = some x :=
      ⟨_, List.get?_eq_get hlt⟩
    refine ⟨x, ?_, ?_, ?_, ?_⟩
    · rw [hrun, getD_range_map _ _ _ (by omega)]
      rw [sliceAt_getLast? m _ i hcomp]
      exact hx
    · rw [hrun, getD_range_map _ _ _ (by omega)]
      rw [sliceAt_head? m _ (i + 1) hlt]
      exact hx
    · rw [hrun, getD_range_map _ _ _ (by omega), getD_range_map _ _ _ (by omega)]
      exact sliceAt_inter_succ m _ i hadm hcomp x hx
    · intro j hj hij
      rw [hrun, List.length_map, List.length_range] at hj
      rw [hrun, getD_range_map _ _ _ (by omega), getD_range_map _ _ _ (by omega)]
      exact sliceAt_inter_far m hm _ i j hadm hcomp hij
  · intro las p st hcond hne
    rw [finalizeCheck_pureO_pos g lf m las p st hcond]
    show takeLast1 st.subset = _
    exact takeLast1_of_ne_nil st.subset hne

/-- Witness for C2: ten raw frames at `submap_size = 4`, all admitted; the
first two submaps `frames[0..4]` and `frames[4..8]` share exactly `4.jpg`. -/
theorem c2_consecutive_share_one_witness :
    ∃ x, ((pureRun 4 (fun _ => true)
        ((List.range 9).map (fun n => toString n ++ ".jpg") ++ ["9.jpg"])).submaps.getD 0 []).getLast? = some x ∧
      ((pureRun 4 (fun _ => true)
        ((List.range 9).map (fun n => toString n ++ ".jpg") ++ ["9.jpg"])).submaps.getD 1 []).head? = some x ∧
      ((pureRun 4 (fun _ => true)
        ((List.range 9).map (fun n => toString n ++ ".jpg") ++ ["9.jpg"])).submaps.getD 0 []).inter
        ((pureRun 4 (fun _ => true)
          ((List.range 9).map (fun n => toString n ++ ".jpg") ++ ["9.jpg"])).submaps.getD 1 []) = [x] ∧
      (∀ j, j < (pureRun 4 (fun _ => true)
          ((List.range 9).map (fun n => toString n ++ ".jpg") ++ ["9.jpg"])).submaps.length → 0 + 2 ≤ j →
        ((pureRun 4 (fun _ => true)
          ((List.range 9).map (fun n => toString n ++ ".jpg") ++ ["9.jpg"])).submaps.getD 0 []).inter
          ((pureRun 4 (fun _ => true)
            ((List.range 9).map (fun n => toString n ++ ".jpg") ++ ["9.jpg"])).submaps.getD j []) = []) :=
  (c2_consecutive_share_one 4 (by decide) (fun _ => true) (fun _ => 0)
    ((List.range 9).map (fun n => toString n ++ ".jpg")) "9.jpg" (by decide)).1 0 (by decide)

/-! ### C4: finalization condition and pass-through of the flush -/

/-- C4: under non-failing collaborators, a submap is finalized at a step
exactly when the admitted buffer has reached `submap_size + 1` frames or the
current frame is the last raw path, and the finalized submap handed to
downstream processing (`run_predictions`, `add_points`) is the buffer exactly
as it stands — whatever its size, including a single frame. -/
theorem c4_finalize_iff (m : Nat) (g : Nat → Bool) (lf : Nat → Nat) :
    (∀ (las p : String) (st : SolverState),
      (finalizeCheck (pureOracles g lf) (baseConfig m) las p st).submaps =
        if st.subset.length = m + 1 ∨ p = las then st.submaps ++ [st.subset]
        else st.submaps) ∧
    (∀ (las p : String) (st : SolverState),
      st.subset.length = m + 1 ∨ p = las →
      (finalizeCheck (pureOracles g lf) (baseConfig m) las p st).trace =
        st.trace ++ [Event.predict st.subset, Event.addPoints st.subset,
          Event.optimize, Event.propagate]) := by
  constructor
  · intro las p st
    rw [finalizeCheck_pureO]
    split <;> rfl
  · intro las p st hcond
    rw [finalizeCheck_pureO_pos g lf m las p st hcond]
    rfl

/-- Witness for C4: a buffer holding the single frame `a.jpg` is flushed at
end of stream: it is finalized, passed through unchanged as the submap, and
the full submap-completion sequence runs on exactly that one frame. -/
theorem c4_finalize_iff_witness :
    (finalizeCheck (pureOracles (fun _ => true) (fun _ => 0)) (baseConfig 16) "z.jpg" "z.jpg"
        { subset := ["a.jpg"], submaps := [], loops := 0, trace := [], err := none }).submaps =
      [["a.jpg"]] ∧
    (finalizeCheck (pureOracles (fun _ => true) (fun _ => 0)) (baseConfig 16) "z.jpg" "z.jpg"
        { subset := ["a.jpg"], submaps := [], loops := 0, trace := [], err := none }).trace =
      [Event.predict ["a.jpg"], Event.addPoints ["a.jpg"], Event.optimize, Event.propagate] := by
  constructor
  · rw [(c4_finalize_iff 16 (fun _ => true) (fun _ => 0)).1]
    decide
  · rw [(c4_finalize_iff 16 (fun _ => true) (fun _ => 0)).2 "z.jpg" "z.jpg" _ (Or.inr rfl)]
    decide

/-! ### C10: the end-of-stream flush fires on the last raw path regardless
of admission -/

/-- C10: the forced flush is triggered by examining the last raw input path,
whether or not the gate admits it: every run over a duplicate-free nonempty
stream finalizes at least one submap; if all trailing raw frames are rejected
the buffered remainder — possibly only the previous submap's carryover frame —
is still finalized; and if no frame is ever admitted, the prediction step is
invoked on an empty buffer. -/
theorem c10_flush_on_last_raw (m : Nat) (hm : 1 ≤ m) (g : Nat → Bool)
    (init : List String) (q : String) (hq : q ∉ init) :
    (1 ≤ (pureRun m g (init ++ [q])).submaps.length) ∧
    ((pureRun 4 (fun i => decide (i < 5))
        ((List.range 7).map (fun n => toString n ++ ".jpg"))).submaps =
      [["0.jpg", "1.jpg", "2.jpg", "3.jpg", "4.jpg"], ["4.jpg"]]) ∧
    ((pureRun 16 (fun _ => false) ["0.jpg", "1.jpg", "2.jpg"]).submaps = [[]] ∧
      Event.predict [] ∈ (pureRun 16 (fun _ => false) ["0.jpg", "1.jpg", "2.jpg"]).trace) := by
  refine ⟨?_, by decide, by decide, by decide⟩
  obtain ⟨k, d, h1, h2, h3, h4, hdec, h5⟩ :=
    pureRun_master m hm g (fun _ => 0) init q hq
  have hrun : (pureRun m g (init ++ [q])).submaps =
      (List.range (k + 1)).map (sliceAt m (accepted g (init ++ [q]))) := by
    unfold pureRun use_optical_flow_downsample
    exact h5
  rw [hrun, List.length_map, List.length_range]
  omega

/-- Witness for C10: a two-frame stream with both frames rejected still
produces a (single, empty) finalized submap. -/
theorem c10_flush_on_last_raw_witness :
    1 ≤ (pureRun 16 (fun _ => false) (["0.jpg"] ++ ["1.jpg"])).submaps.length :=
  (c10_flush_on_last_raw 16 (by decide) (fun _ => false) ["0.jpg"] "1.jpg" (by decide)).1

/-! ### C3: the submap-completion sequence after every finalization -/

theorem BlocksIntact_of_noPredict (t : List Event) (h : ∀ S, Event.predict S ∉ t) :
    BlocksIntact t := by
  intro u S v ht
  exact absurd (ht ▸ List.mem_append_right u (List.mem_cons_self _ _)) (h S)

theorem BlocksIntact_append (t e : List Event) (h1 : BlocksIntact t) (h2 : BlocksIntact e) :
    BlocksIntact (t ++ e) := by
  intro u S v ht
  rcases List.append_eq_append_iff.mp ht with ⟨a', hu, he⟩ | ⟨c', htc, hv⟩
  · exact h2 a' S v he
  · match c', hv with
    | [], hv =>
      exact h2 [] S v (by simpa using hv.symm)
    | x :: w, hv =>
      simp only [List.cons_append, List.cons.injEq] at hv
      obtain ⟨hx, hv2⟩ := hv
      subst hv2
      rw [← hx] at htc
      have hw : w.take 3 = [Event.addPoints S, Event.optimize, Event.propagate] :=
        h1 u S w htc
      have hwlen : 3 ≤ w.length := by
        have hlw := congrArg List.length hw
        rw [List.length_take] at hlw
        simp only [List.length_cons, List.length_nil] at hlw
        omega
      rw [List.take_append_of_le_length hwlen, hw]

theorem BlocksIntact_block (s : List String) : BlocksIntact (blockOf s) := by
  intro u S v ht
  match u, ht with
  | [], ht =>
    simp only [blockOf, List.nil_append, List.cons.injEq, Event.predict.injEq] at ht
    obtain ⟨rfl, rfl⟩ := ht
    rfl
  | e1 :: u', ht =>
    exfalso
    simp only [blockOf, List.cons_append, List.cons.injEq] at ht
    have hmem : Event.predict S ∈
        ([Event.addPoints s, Event.optimize, Event.propagate] : List Event) := by
      rw [ht.2]
      exact List.mem_append_right u' (List.mem_cons_self _ _)
    simp at hmem

theorem BlocksIntact_frameEvents (p : String) (b : Bool) :
    BlocksIntact [Event.examine p, if b then Event.accept p else Event.reject p] := by
  apply BlocksIntact_of_noPredict
  intro S hS
  cases b <;> simp at hS

theorem filter_frameEvents (p : String) (b : Bool) :
    List.filter isProcEvent
      [Event.examine p, if b then Event.accept p else Event.reject p] = [] := by
  cases b <;> rfl

/-- Finalization preserves the trace invariants: the (possibly) appended
block contributes exactly its submap's completion sequence. -/
theorem c3_finalize (m : Nat) (g : Nat → Bool) (lf : Nat → Nat) (las p : String)
    (st : SolverState)
    (hf : st.trace.filter isProcEvent = st.submaps.flatMap blockOf)
    (hb : BlocksIntact st.trace) :
    ((finalizeCheck (pureOracles g lf) (baseConfig m) las p st).trace.filter isProcEvent =
      (finalizeCheck (pureOracles g lf) (baseConfig m) las p st).submaps.flatMap blockOf) ∧
    BlocksIntact (finalizeCheck (pureOracles g lf) (baseConfig m) las p st).trace ∧
    (finalizeCheck (pureOracles g lf) (baseConfig m) las p st).err = st.err := by
  rw [finalizeCheck_pureO]
  split
  · refine ⟨?_, ?_, rfl⟩
    · show (st.trace ++ blockOf st.subset).filter isProcEvent =
        (st.submaps ++ [st.subset]).flatMap blockOf
      rw [List.filter_append, hf, List.flatMap_append]
      congr 1
    · exact BlocksIntact_append _ _ hb (BlocksIntact_block _)
  · exact ⟨hf, hb, rfl⟩

/-- One pure step preserves the trace invariants. -/
theorem c3_step (m : Nat) (g : Nat → Bool) (lf : Nat → Nat) (las p : String) (i : Nat)
    (st : SolverState) (he : st.err = none)
    (hf : st.trace.filter isProcEvent = st.submaps.flatMap blockOf)
    (hb : BlocksIntact st.trace) :
    (stepSlam true (pureOracles g lf) (baseConfig m) las i p st).err = none ∧
    ((stepSlam true (pureOracles g lf) (baseConfig m) las i p st).trace.filter isProcEvent =
      (stepSlam true (pureOracles g lf) (baseConfig m) las i p st).submaps.flatMap blockOf) ∧
    BlocksIntact (stepSlam true (pureOracles g lf) (baseConfig m) las i p st).trace := by
  rw [stepSlam_pureO g lf m las p i st he]
  have hf1 : (st.trace ++ [Event.examine p,
      if g i then Event.accept p else Event.reject p]).filter isProcEvent =
      st.submaps.flatMap blockOf := by
    rw [List.filter_append, filter_frameEvents p (g i), List.append_nil, hf]
  have hb1 : BlocksIntact (st.trace ++ [Event.examine p,
      if g i then Event.accept p else Event.reject p]) :=
    BlocksIntact_append _ _ hb (BlocksIntact_frameEvents p (g i))
  obtain ⟨h1, h2, h3⟩ := c3_finalize m g lf las p
    { st with
      subset := (if g i then st.subset ++ [p] else st.subset),
      trace := st.trace ++ [Event.examine p,
        if g i then Event.accept p else Event.reject p] }
    hf1 hb1
  exact ⟨by rw [h3]; exact he, h1, h2⟩

theorem c3_loop (m : Nat) (g : Nat → Bool) (lf : Nat → Nat) (las : String) :
    ∀ (l : List String) (i : Nat) (st : SolverState), st.err = none →
      st.trace.filter isProcEvent = st.submaps.flatMap blockOf →
      BlocksIntact st.trace →
      ((loopFrames true (pureOracles g lf) (baseConfig m) las i l st).trace.filter isProcEvent =
        (loopFrames true (pureOracles g lf) (baseConfig m) las i l st).submaps.flatMap blockOf) ∧
      BlocksIntact (loopFrames true (pureOracles g lf) (baseConfig m) las i l st).trace := by
  intro l
  induction l with
  | nil => intro i st _ hf hb; exact ⟨hf, hb⟩
  | cons p rest ih =>
    intro i st he hf hb
    obtain ⟨he', hf', hb'⟩ := c3_step m g lf las p i st he hf hb
    exact ih (i + 1) _ he' hf' hb'

/-- C3: in every non-failing run, the processing events of the trace are
exactly, in finalization order, the block `predict S, addPoints S, optimize,
propagate` for each finalized submap `S` — optimization and propagation are
never skipped after an ingestion, and submaps are processed strictly in
stream order — and each block is contiguous: a `predict S` event is
immediately followed by `addPoints S`, `optimize`, `propagate`, so no further
frame is consumed before the sequence completes. -/
theorem c3_processing_sequence (m : Nat) (g : Nat → Bool) (paths : List String) :
    ((pureRun m g paths).trace.filter isProcEvent =
      (pureRun m g paths).submaps.flatMap blockOf) ∧
    BlocksIntact (pureRun m g paths).trace := by
  unfold pureRun use_optical_flow_downsample
  exact c3_loop m g (fun _ => 0) (paths.getLastD "") paths 0 initState rfl rfl
    (BlocksIntact_of_noPredict [] (by intro S hS; cases hS))

/-! ### C5: empty image set short-circuits before any processing -/

/-- C5: when the extracted archive holds no valid images, `run_slam` returns
a null artifact with the specific "no valid images found" message, and the
event trace is empty — no sorting, no model retrieval, no solver
construction, and no gate, window, or orchestrator step executes. -/
theorem c5_no_valid_images (o : Oracles) (cfg : Config) (files : List String)
    (h : (files.filter isValidImage).length = 0) :
    run_slam o cfg files =
      (none,
       "Error: No valid images found in the zip file. Please upload a zip containing .jpg, .jpeg, or .png images.",
       []) := by
  unfold run_slam
  rw [if_pos h]
  rfl

/-- Witness for C5: an archive containing only a depth map, a text file, and
an unsupported image format has no valid images; the run short-circuits. -/
theorem c5_no_valid_images_witness :
    run_slam (pureOracles (fun _ => true) (fun _ => 0)) (baseConfig 16)
        ["scan_depth.png", "notes.txt", "photo.bmp"] =
      (none,
       "Error: No valid images found in the zip file. Please upload a zip containing .jpg, .jpeg, or .png images.",
       []) :=
  c5_no_valid_images _ _ _ (by decide)

/-! ### C6: every failure collapses to one generic error result -/

theorem finishRun_of_err (o : Oracles) (stF : SolverState) (e : Exn)
    (h : finishErr o stF = some e) :
    (finishRun o stF).1 = none ∧ (finishRun o stF).2.1 = errorMessage e := by
  unfold finishRun finishErr at *
  rcases herr : stF.err with _ | e1
  · rw [herr] at h
    rcases huv : o.updateVisOk with e2 | u
    · rw [huv] at h
      simp only [Option.some.injEq] at h
      subst h
      exact ⟨rfl, rfl⟩
    · rw [huv] at h
      rcases hex : o.exportResult with e3 | glb
      · rw [hex] at h
        simp only [Option.some.injEq] at h
        subst h
        exact ⟨rfl, rfl⟩
      · rw [hex] at h
        exact absurd h (by simp)
  · rw [herr] at h
    simp only [Option.some.injEq] at h
    subst h
    exact ⟨rfl, rfl⟩

/-- C6: whenever any collaborator call of the main processing path (gate
decode, inference, ingestion, optimization, propagation, visualization, or
export) raises an exception `e`, `run_slam` returns exactly a null artifact
paired with the single generic error string carrying the error text and the
traceback; no partial artifact is returned, and no exception propagates to
the caller (`run_slam` is a total function into result tuples). -/
theorem c6_failure_collapses (o : Oracles) (cfg : Config) (files : List String) (e : Exn)
    (h : runError o cfg files = some e) :
    (run_slam o cfg files).1 = none ∧
    (run_slam o cfg files).2.1 =
      "Error during SLAM processing: " ++ e.msg ++ "\n" ++ e.tb := by
  unfold runError at h
  unfold run_slam
  by_cases himg : (files.filter isValidImage).length = 0
  · rw [if_pos himg] at h
    exact absurd h (by simp)
  · rw [if_neg himg] at h
    rw [if_neg himg]
    exact finishRun_of_err o _ e h

/-- Witness for C6: a run whose very first frame decode/gate call raises
collapses to the generic error result. -/
theorem c6_failure_collapses_witness :
    (run_slam (failingGateOracles { msg := "cv2 decode failed", tb := "Traceback (most recent call last): ..." })
        (baseConfig 16) ["0.jpg", "1.jpg"]).1 = none ∧
    (run_slam (failingGateOracles { msg := "cv2 decode failed", tb := "Traceback (most recent call last): ..." })
        (baseConfig 16) ["0.jpg", "1.jpg"]).2.1 =
      "Error during SLAM processing: " ++ "cv2 decode failed" ++ "\n"
        ++ "Traceback (most recent call last): ..." :=
  c6_failure_collapses _ _ _
    { msg := "cv2 decode failed", tb := "Traceback (most recent call last): ..." }
    (by decide)

/-! ### C9: identical inputs, configuration, and collaborator behaviour give
identical reported counts -/

theorem loopFrames_err_absorb (ofd : Bool) (o : Oracles) (cfg : Config) (las : String) :
    ∀ (l : List String) (i : Nat) (st : SolverState) (e : Exn), st.err = some e →
      (loopFrames ofd o cfg las i l st).err = some e := by
  intro l
  induction l with
  | nil => intro i st e h; exact h
  | cons p rest ih =>
    intro i st e h
    simp only [loopFrames]
    have hstep : stepSlam ofd o cfg las i p st = st := by
      unfold stepSlam
      rw [if_pos (by simp [h])]
    rw [hstep]
    exact ih (i + 1) st e h

/-- If neither behaviour raises, the completion sequence computes the same
state under collaborators that agree on loop-closure counts. -/
theorem finalizeCheck_agree (o1 o2 : Oracles) (cfg : Config) (las p : String)
    (st : SolverState) (hl : o1.loopsAdded = o2.loopsAdded)
    (h1 : (finalizeCheck o1 cfg las p st).err = none)
    (h2 : (finalizeCheck o2 cfg las p st).err = none) :
    finalizeCheck o1 cfg las p st = finalizeCheck o2 cfg las p st := by
  unfold finalizeCheck at *
  by_cases hcond : st.subset.length = cfg.submap_size + 1 ∨ p = las
  · rw [if_pos hcond] at h1 h2 ⊢
    rcases hp1 : o1.predictOk st.submaps.length with e1 | u1
    · rw [hp1] at h1; simp at h1
    rcases hp2 : o2.predictOk st.submaps.length with e2 | u2
    · rw [hp2] at h2; simp at h2
    rcases ha1 : o1.addPointsOk st.submaps.length with e1 | v1
    · rw [hp1, ha1] at h1; simp at h1
    rcases ha2 : o2.addPointsOk st.submaps.length with e2 | v2
    · rw [hp2, ha2] at h2; simp at h2
    rcases ho1 : o1.optimizeOk st.submaps.length with e1 | w1
    · rw [hp1, ha1, ho1] at h1; simp at h1
    rcases ho2 : o2.optimizeOk st.submaps.length with e2 | w2
    · rw [hp2, ha2, ho2] at h2; simp at h2
    rcases hr1 : o1.propagateOk st.submaps.length with e1 | x1
    · rw [hp1, ha1, ho1, hr1] at h1; simp at h1
    rcases hr2 : o2.propagateOk st.submaps.length with e2 | x2
    · rw [hp2, ha2, ho2, hr2] at h2; simp at h2
    simp [hp1, hp2, ha1, ha2, ho1, ho2, hr1, hr2, hl]
    rw [if_pos hcond]
  · rw [if_neg hcond, if_neg hcond]

theorem stepSlam_agree (o1 o2 : Oracles) (cfg : Config) (las : String)
    (hg : o1.gate = o2.gate) (hl : o1.loopsAdded = o2.loopsAdded)
    (i : Nat) (p : String) (st : SolverState) (he : st.err = none)
    (h1 : (stepSlam true o1 cfg las i p st).err = none)
    (h2 : (stepSlam true o2 cfg las i p st).err = none) :
    stepSlam true o1 cfg las i p st = stepSlam true o2 cfg las i p st := by
  unfold stepSlam at *
  simp only [he, Option.isSome_none, Bool.false_eq_true, if_false, if_true] at h1 h2 ⊢
  rw [← hg] at h2 ⊢
  generalize hG : o1.gate cfg.min_disparity i = G at h1 h2 ⊢
  rcases G with e | b
  · simp at h1
  · exact finalizeCheck_agree o1 o2 cfg las p _ hl h1 h2

theorem loopFrames_agree (o1 o2 : Oracles) (cfg : Config) (las : String)
    (hg : o1.gate = o2.gate) (hl : o1.loopsAdded = o2.loopsAdded) :
    ∀ (l : List String) (i : Nat) (st : SolverState), st.err = none →
      (loopFrames true o1 cfg las i l st).err = none →
      (loopFrames true o2 cfg las i l st).err = none →
      loopFrames true o1 cfg las i l st = loopFrames true o2 cfg las i l st := by
  intro l
  induction l with
  | nil => intro i st _ _ _; rfl
  | cons p rest ih =>
    intro i st he h1 h2
    simp only [loopFrames] at h1 h2 ⊢
    have hs1 : (stepSlam true o1 cfg las i p st).err = none := by
      rcases hs : (stepSlam true o1 cfg las i p st).err with _ | e
      · rfl
      · rw [loopFrames_err_absorb true o1 cfg las rest (i + 1) _ e hs] at h1
        exact absurd h1 (by simp)
    have hs2 : (stepSlam true o2 cfg las i p st).err = none := by
      rcases hs : (stepSlam true o2 cfg las i p st).err with _ | e
      · rfl
      · rw [loopFrames_err_absorb true o2 cfg las rest (i + 1) _ e hs] at h2
        exact absurd h2 (by simp)
    have hstep := stepSlam_agree o1 o2 cfg las hg hl i p st he hs1 hs2
    rw [← hstep] at h2 ⊢
    exact ih (i + 1) _ hs1 h1 h2

theorem finishErr_none_err (o : Oracles) (stF : SolverState) (h : finishErr o stF = none) :
    stF.err = none := by
  unfold finishErr at h
  rcases herr : stF.err with _ | e
  · rfl
  · rw [herr] at h; simp at h

theorem finishRun_message_agree (o1 o2 : Oracles) (stF : SolverState)
    (h1 : finishErr o1 stF = none) (h2 : finishErr o2 stF = none) :
    (finishRun o1 stF).2.1 = (finishRun o2 stF).2.1 := by
  unfold finishRun finishErr at *
  rcases herr : stF.err with _ | e
  · rw [herr] at h1 h2
    rcases huv1 : o1.updateVisOk with e1 | u1
    · rw [huv1] at h1; simp at h1
    rcases huv2 : o2.updateVisOk with e2 | u2
    · rw [huv2] at h2; simp at h2
    rcases hex1 : o1.exportResult with e1 | g1
    · rw [huv1, hex1] at h1; simp at h1
    rcases hex2 : o2.exportResult with e2 | g2
    · rw [huv2, hex2] at h2; simp at h2
    simp [huv1, huv2, hex1, hex2]
  · simp [herr] at h1

/-- C9: two runs of `run_slam` on the identical extracted archive and
identical configuration, whose collaborators behave identically where the
driver can observe them (same sort order, same gate verdicts, same
loop-closure counts) and which both complete without an exception, report
identical submap counts, identical loop-closure counts, and the identical
status message — even if collaborator outputs the driver does not read (such
as the exported artifact path) differ. -/
theorem c9_deterministic_counts (o1 o2 : Oracles) (cfg : Config) (files : List String)
    (hs : o1.sortImages = o2.sortImages) (hg : o1.gate = o2.gate)
    (hl : o1.loopsAdded = o2.loopsAdded)
    (hne : ¬ (files.filter isValidImage).length = 0)
    (h1 : runError o1 cfg files = none) (h2 : runError o2 cfg files = none) :
    (slamState o1 cfg files).submaps.length = (slamState o2 cfg files).submaps.length ∧
    (slamState o1 cfg files).loops = (slamState o2 cfg files).loops ∧
    (run_slam o1 cfg files).2.1 = (run_slam o2 cfg files).2.1 := by
  unfold runError at h1 h2
  rw [if_neg hne] at h1 h2
  have he1 : (slamState o1 cfg files).err = none := finishErr_none_err _ _ h1
  have he2 : (slamState o2 cfg files).err = none := finishErr_none_err _ _ h2
  have hstate : slamState o1 cfg files = slamState o2 cfg files := by
    unfold slamState at he1 he2 ⊢
    rw [← hs] at he2 ⊢
    exact loopFrames_agree o1 o2 cfg _ hg hl _ 0 _ rfl he1 he2
  refine ⟨by rw [hstate], by rw [hstate], ?_⟩
  unfold run_slam
  rw [if_neg hne, if_neg hne, hstate]
  exact finishRun_message_agree o1 o2 _ (hstate ▸ h1) h2

/-- Witness for C9: two collaborator behaviours identical except for the
exported artifact path give the same counts and the same status message. -/
theorem c9_deterministic_counts_witness :
    (slamState oraclesA (baseConfig 16) ["0.jpg", "1.jpg"]).submaps.length =
      (slamState oraclesB (baseConfig 16) ["0.jpg", "1.jpg"]).submaps.length ∧
    (slamState oraclesA (baseConfig 16) ["0.jpg", "1.jpg"]).loops =
      (slamState oraclesB (baseConfig 16) ["0.jpg", "1.jpg"]).loops ∧
    (run_slam oraclesA (baseConfig 16) ["0.jpg", "1.jpg"]).2.1 =
      (run_slam oraclesB (baseConfig 16) ["0.jpg", "1.jpg"]).2.1 :=
  c9_deterministic_counts oraclesA oraclesB (baseConfig 16) ["0.jpg", "1.jpg"]
    rfl rfl rfl (by decide) (by decide) (by decide)

/-! ### C7: the gating branch is governed by a hardcoded constant, not a
configuration switch -/

theorem acceptCount_append (t1 t2 : List Event) :
    acceptCount (t1 ++ t2) = acceptCount t1 + acceptCount t2 := by
  simp [acceptCount, List.filter_append]

theorem examineCount_append (t1 t2 : List Event) :
    examineCount (t1 ++ t2) = examineCount t1 + examineCount t2 := by
  simp [examineCount, List.filter_append]

theorem c7_step (g : Nat → Bool) (lf : Nat → Nat) (m : Nat) (las p : String) (i : Nat)
    (st : SolverState) (he : st.err = none) :
    acceptCount (stepSlam false (pureOracles g lf) (baseConfig m) las i p st).trace =
      acceptCount st.trace + 1 ∧
    examineCount (stepSlam false (pureOracles g lf) (baseConfig m) las i p st).trace =
      examineCount st.trace ∧
    (stepSlam false (pureOracles g lf) (baseConfig m) las i p st).err = none := by
  have hred : stepSlam false (pureOracles g lf) (baseConfig m) las i p st =
      finalizeCheck (pureOracles g lf) (baseConfig m) las p
        { st with subset := st.subset ++ [p], trace := st.trace ++ [Event.accept p] } := by
    simp [stepSlam, he]
  rw [hred, finalizeCheck_pureO]
  split
  · refine ⟨?_, ?_, he⟩
    · show acceptCount (st.trace ++ [Event.accept p] ++ blockOf (st.subset ++ [p])) = _
      rw [acceptCount_append, acceptCount_append]
      have hb : acceptCount (blockOf (st.subset ++ [p])) = 0 := rfl
      have ha : acceptCount [Event.accept p] = 1 := rfl
      omega
    · show examineCount (st.trace ++ [Event.accept p] ++ blockOf (st.subset ++ [p])) = _
      rw [examineCount_append, examineCount_append]
      have hb : examineCount (blockOf (st.subset ++ [p])) = 0 := rfl
      have ha : examineCount [Event.accept p] = 0 := rfl
      omega
  · refine ⟨?_, ?_, he⟩
    · show acceptCount (st.trace ++ [Event.accept p]) = _
      rw [acceptCount_append]
      rfl
    · show examineCount (st.trace ++ [Event.accept p]) = _
      rw [examineCount_append]
      rfl

theorem c7_loop (g : Nat → Bool) (lf : Nat → Nat) (m : Nat) (las : String) :
    ∀ (l : List String) (i : Nat) (st : SolverState), st.err = none →
      acceptCount (loopFrames false (pureOracles g lf) (baseConfig m) las i l st).trace =
        acceptCount st.trace + l.length ∧
      examineCount (loopFrames false (pureOracles g lf) (baseConfig m) las i l st).trace =
        examineCount st.trace ∧
      (loopFrames false (pureOracles g lf) (baseConfig m) las i l st).err = none := by
  intro l
  induction l with
  | nil => intro i st he; exact ⟨by simp [loopFrames], rfl, he⟩
  | cons p rest ih =>
    intro i st he
    obtain ⟨ha, hx, he'⟩ := c7_step g lf m las p i st he
    obtain ⟨ha2, hx2, he2⟩ := ih (i + 1) _ he'
    simp only [loopFrames]
    refine ⟨?_, ?_, he2⟩
    · rw [ha2, ha, List.length_cons]; omega
    · rw [hx2, hx]

/-- C7 (amended): in `run_slam` the gating branch is governed by the local
constant `use_optical_flow_downsample`, hardcoded to `True` (line 88) — it is
not one of the five configuration parameters, so gating cannot be disabled
through the configuration.  Had the constant been `False`, the `else` branch
(line 107-108) would admit every raw input frame unconditionally and never
consult the gate, making the admitted-frame count equal the raw input-frame
count with no anchor tracking. -/
theorem c7_flag_gates_admission (g : Nat → Bool) (lf : Nat → Nat) (m : Nat) (las : String) :
    use_optical_flow_downsample = true ∧
    (∀ (l : List String) (i : Nat) (st : SolverState), st.err = none →
      acceptCount (loopFrames false (pureOracles g lf) (baseConfig m) las i l st).trace =
        acceptCount st.trace + l.length ∧
      examineCount (loopFrames false (pureOracles g lf) (baseConfig m) las i l st).trace =
        examineCount st.trace) :=
  ⟨rfl, fun l i st he =>
    ⟨(c7_loop g lf m las l i st he).1, (c7_loop g lf m las l i st he).2.1⟩⟩

/-- Witness for C7 (amended): with the constant counterfactually `False`,
a two-frame stream yields two admissions and no gate consultation. -/
theorem c7_flag_gates_admission_witness :
    acceptCount (loopFrames false (pureOracles (fun _ => false) (fun _ => 0)) (baseConfig 16)
        "1.jpg" 0 ["0.jpg", "1.jpg"] initState).trace = acceptCount initState.trace + 2 ∧
    examineCount (loopFrames false (pureOracles (fun _ => false) (fun _ => 0)) (baseConfig 16)
        "1.jpg" 0 ["0.jpg", "1.jpg"] initState).trace = examineCount initState.trace :=
  (c7_flag_gates_admission (fun _ => false) (fun _ => 0) 16 "1.jpg").2
    ["0.jpg", "1.jpg"] 0 initState rfl

/-- C7 counterexample: no configuration value disables gating — for every
configuration, collaborator behaviour exists (a gate rejecting a frame) under
which the admitted-frame count differs from the raw input-frame count, so
admission is never unconditional under any configuration. -/
theorem c7_counterexample :
    ¬ ∃ cfg : Config, ∀ (o : Oracles) (files : List String),
      acceptCount (run_slam o cfg files).2.2 = (files.filter isValidImage).length := by
  rintro ⟨cfg, hcfg⟩
  have h0 := hcfg (pureOracles (fun _ => false) (fun _ => 0)) ["0.jpg"]
  have h1 : acceptCount
      (run_slam (pureOracles (fun _ => false) (fun _ => 0)) cfg ["0.jpg"]).2.2 = 0 := rfl
  have h2 : ((["0.jpg"] : List String).filter isValidImage).length = 1 := by decide
  rw [h1, h2] at h0
  exact absurd h0 (by decide)

/-! ### C8: ranges live only in the demo interface; run_slam validates
nothing -/

theorem finalizeCheck_pureO_cfg (g : Nat → Bool) (lf : Nat → Nat) (cfg : Config)
    (las p : String) (st : SolverState) :
    finalizeCheck (pureOracles g lf) cfg las p st =
      if st.subset.length = cfg.submap_size + 1 ∨ p = las then
        { st with subset := takeLast1 st.subset,
                  submaps := st.submaps ++ [st.subset],
                  loops := st.loops + lf st.submaps.length,
                  trace := st.trace ++ blockOf st.subset }
      else st := by
  by_cases h : st.subset.length = cfg.submap_size + 1 ∨ p = las
  · simp [finalizeCheck, pureOracles, h, blockOf]
  · simp [finalizeCheck, pureOracles, h]

theorem stepSlam_pureO_cfg (g : Nat → Bool) (lf : Nat → Nat) (cfg : Config) (las p : String)
    (i : Nat) (st : SolverState) (he : st.err = none) :
    stepSlam true (pureOracles g lf) cfg las i p st =
      finalizeCheck (pureOracles g lf) cfg las p
        { st with subset := if g i then st.subset ++ [p] else st.subset,
                  trace := st.trace ++
                    [Event.examine p, if g i then Event.accept p else Event.reject p] } := by
  simp [stepSlam, he, pureOracles]

/-- C8 (amended): the declared validation ranges exist only in the `demo`
Gradio interface's slider declarations (lines 143-146), which match the
stated ranges and carry in-range defaults; `run_slam` itself performs no
validation, and an invocation with any configuration values — in range or
not — proceeds through the full pipeline. -/
theorem c8_ranges_only_in_demo :
    (demo_submap_size_slider.lo = 4 ∧ demo_submap_size_slider.hi = 32) ∧
    (demo_max_loops_slider.lo = 0 ∧ demo_max_loops_slider.hi = 5) ∧
    (demo_min_disparity_slider.lo = 0 ∧ demo_min_disparity_slider.hi = 100) ∧
    (demo_conf_threshold_slider.lo = 0 ∧ demo_conf_threshold_slider.hi = 100) ∧
    (demo_submap_size_slider.inRange demo_submap_size_slider.value ∧
      demo_max_loops_slider.inRange demo_max_loops_slider.value ∧
      demo_min_disparity_slider.inRange demo_min_disparity_slider.value ∧
      demo_conf_threshold_slider.inRange demo_conf_threshold_slider.value) ∧
    (∀ cfg : Config,
      (run_slam (pureOracles (fun _ => true) (fun _ => 0)) cfg ["0.jpg"]).2.1 =
        "VGGT-SLAM completed with 1 submaps and 0 loop closures.") := by
  refine ⟨⟨rfl, rfl⟩, ⟨rfl, rfl⟩, ⟨rfl, rfl⟩, ⟨rfl, rfl⟩, ⟨?_, ?_, ?_, ?_⟩, ?_⟩
  · exact ⟨by norm_num [demo_submap_size_slider, Slider.inRange],
      by norm_num [demo_submap_size_slider, Slider.inRange]⟩
  · exact ⟨by norm_num [demo_max_loops_slider, Slider.inRange],
      by norm_num [demo_max_loops_slider, Slider.inRange]⟩
  · exact ⟨by norm_num [demo_min_disparity_slider, Slider.inRange],
      by norm_num [demo_min_disparity_slider, Slider.inRange]⟩
  · exact ⟨by norm_num [demo_conf_threshold_slider, Slider.inRange],
      by norm_num [demo_conf_threshold_slider, Slider.inRange]⟩
  · intro cfg
    have hmain : slamState (pureOracles (fun _ => true) (fun _ => 0)) cfg ["0.jpg"] =
        { subset := takeLast1 ["0.jpg"], submaps := [["0.jpg"]], loops := 0,
          trace := [Event.sortEvent, Event.getModel, Event.mkSolver, Event.examine "0.jpg",
            Event.accept "0.jpg"] ++ blockOf ["0.jpg"], err := none } := by
      unfold slamState use_optical_flow_downsample
      show loopFrames true (pureOracles (fun _ => true) (fun _ => 0)) cfg "0.jpg" 0 ["0.jpg"]
        { subset := [], submaps := [], loops := 0,
          trace := [Event.sortEvent, Event.getModel, Event.mkSolver], err := none } = _
      simp only [loopFrames]
      rw [stepSlam_pureO_cfg _ _ _ _ _ _ _ rfl, finalizeCheck_pureO_cfg,
        if_pos (Or.inr rfl)]
      rfl
    unfold run_slam
    rw [if_neg (by decide), hmain]
    rfl

/-- C8 counterexample: an invocation of `run_slam` with every numeric
parameter outside its stated range (`submap_size = 100`, `max_loops = 99`,
`min_disparity = 500`, `conf_threshold = -3`) is not rejected: processing
proceeds and the run completes normally. -/
theorem c8_counterexample :
    (run_slam (pureOracles (fun _ => true) (fun _ => 0))
        { use_sim3 := false, submap_size := 100, max_loops := 99, min_disparity := 500,
          conf_threshold := -3 } ["0.jpg", "1.jpg"]).2.1 =
      "VGGT-SLAM completed with 1 submaps and 0 loop closures." ∧
    (run_slam (pureOracles (fun _ => true) (fun _ => 0))
        { use_sim3 := false, submap_size := 100, max_loops := 99, min_disparity := 500,
          conf_threshold := -3 } ["0.jpg", "1.jpg"]).1 = some "scene.glb" := by
  constructor <;> rfl
